import Mathlib

/-!
Verification of the chunked-upload control loop of the
huge-uploader-nodejs-client module.

The JavaScript source (class HugeUploaderNodeClient) is embedded shallowly:

* Files are lists of bytes (`List Nat`); the file descriptor is a Boolean
  open flag plus a read cursor (`fs.read` with position `null` reads at the
  cursor and advances it).
* The HTTP layer is an oracle `resp : Nat → Outcome` giving the outcome of
  the n-th POST actually issued; issued requests are traced as `Req` values
  recording the `uploader-chunk-number` header, the payload bytes and the
  `lastChunk` flag (post parameters are appended to the form exactly when
  that flag is set).
* Event-emitter output is traced as a list of `Ev` values in emission order.
* The promise recursion of `_sendChunks` is driven by a fuel parameter;
  `none` means the fuel ran out, `some` is a genuinely terminated session.
-/

namespace HugeUploader

/-- Outcome of one POST: an HTTP status, or a transport-level failure that
rejects the fetch promise (network error, timeout). -/
inductive Outcome where
  | status (code : Nat)
  | netError
deriving DecidableEq

/-- Terminal error messages emitted by the code, keeping only the data the
message text interpolates. `serverResponded code` is the message
`Server responded with <code>. Stopping upload`; `noMoreRetries chunk` is
`An error occured uploading chunk <chunk>. No more retries, stopping upload`;
`startFail` is `Failed starting to sending chunks`. -/
inductive ErrMsg where
  | serverResponded (code : Nat)
  | noMoreRetries (chunk : Nat)
  | startFail
deriving DecidableEq

/-- Events observable through the event emitter, in emission order. -/
inductive Ev where
  | progress (pct : Nat)
  | fileRetry (chunk retriesLeft : Nat)
  | finish
  | error (msg : ErrMsg)
deriving DecidableEq

/-- One POST request as it leaves `_sendChunk`: the chunk-number header, the
payload bytes of the `file` field, and the `lastChunk` flag (the post
parameters are appended to the form exactly when this flag is true). -/
structure Req where
  chunkNumber : Nat
  bytes : List Nat
  lastFlag : Bool
deriving DecidableEq

instance : Inhabited Req := ⟨⟨0, [], false⟩⟩

/-- Construction-time session configuration: the file contents, the chunk
size in bytes (`chunkSize * 1024 * 1024` in the source), the retry budget
and whether `postParams` was supplied (when absent, `this.postParams` is
`undefined` and `Object.keys(this.postParams)` throws on the last chunk). -/
structure Config where
  file : List Nat
  chunkSizeBytes : Nat
  retries : Nat
  hasPostParams : Bool

/-- Mutable session state: read cursor of the descriptor, open flag,
`this.chunkCount`, `this.retriesCount`, and the count of POSTs issued so
far (used to index the response oracle). -/
structure St where
  pos : Nat
  fdOpen : Bool
  chunkCount : Nat
  retriesCount : Nat
  sent : Nat
deriving DecidableEq

/-- State right after `_startSending` successfully opened the descriptor. -/
def initSt : St := ⟨0, true, 0, 0, 0⟩

/-- totalChunks = Math.ceil(fileSize / chunkSizeBytes), computed once in the
constructor. -/
def totalChunks (cfg : Config) : Nat :=
  (cfg.file.length + cfg.chunkSizeBytes - 1) / cfg.chunkSizeBytes

/-- Math.round(x) for the nonnegative rational num/den: floor(num/den + 1/2). -/
def jsRound (num den : Nat) : Nat :=
  (2 * num + den) / (2 * den)

/-- res.status === 200 || res.status === 201 || res.status === 204. -/
def successStatus (code : Nat) : Bool :=
  code == 200 || code == 201 || code == 204

/-- [408, 502, 503, 504].includes(res.status). -/
def retryableStatus (code : Nat) : Bool :=
  code == 408 || code == 502 || code == 503 || code == 504

/-- Result of `_getChunk`: the read promise rejected (e.g. the descriptor is
already closed), or zero bytes were read (the descriptor is closed and the
function resolves `undefined`), or a chunk of bytes with its last-chunk
flag (`nread < this.chunkSizeBytes`). -/
inductive ReadResult where
  | readError
  | eof
  | chunk (data : List Nat) (lastChunk : Bool)
deriving DecidableEq

/-- `_getChunk`: `fs.read(this.fd, this.chunk, 0, this.chunkSizeBytes, null, ...)`
reads at the current cursor and advances it by the bytes read; on reading
zero bytes the descriptor is closed and `undefined` is resolved. -/
def getChunk (cfg : Config) (st : St) : St × ReadResult :=
  if st.fdOpen then
    let nread := min cfg.chunkSizeBytes (cfg.file.length - st.pos)
    if nread = 0 then
      ({ st with fdOpen := false }, ReadResult.eof)
    else
      ({ st with pos := st.pos + nread },
        ReadResult.chunk ((cfg.file.drop st.pos).take nread)
          (decide (nread < cfg.chunkSizeBytes)))
  else
    (st, ReadResult.readError)

/-- `_manageRetries`: on any failure of the current chunk, post-increment the
retry counter; while the old value is below the budget, emit `fileRetry`
(with `retriesLeft = retries - retriesCount` after the increment) and retry
`_sendChunks` after the delay (`retry` is that delayed continuation);
otherwise emit the terminal error. -/
def manageRetries (cfg : Config) (retry : St → Option (List Ev × List Req))
    (st : St) : Option (List Ev × List Req) :=
  if st.retriesCount < cfg.retries then
    (retry { st with retriesCount := st.retriesCount + 1 }).map
      (fun out =>
        (Ev.fileRetry st.chunkCount (cfg.retries - (st.retriesCount + 1)) :: out.1,
          out.2))
  else
    some ([Ev.error (ErrMsg.noMoreRetries st.chunkCount)], [])

/-- `_sendChunks`: read a chunk, send it, classify the response.  A rejected
read, the `undefined` resolved after end-of-file (whose destructuring in
`_sendChunk({ data, lastChunk })` throws), and the `Object.keys(undefined)`
throw when `postParams` is absent on a last-flagged chunk all land in the
final `.catch`, which calls `_manageRetries`.  On 200/201/204 the chunk
counter is incremented; if chunks remain the loop recurses (the `progress`
event is emitted synchronously before any event of the recursion), else
`finish` is emitted followed by the unconditional `progress` emission.
On 408/502/503/504 `_manageRetries` runs; on any other status the terminal
error naming the status is emitted. -/
def sendChunks (cfg : Config) (resp : Nat → Outcome) :
    Nat → St → Option (List Ev × List Req)
  | 0, _ => none
  | fuel + 1, st =>
    match getChunk cfg st with
    | (st1, ReadResult.readError) =>
        manageRetries cfg (sendChunks cfg resp fuel) st1
    | (st1, ReadResult.eof) =>
        manageRetries cfg (sendChunks cfg resp fuel) st1
    | (st1, ReadResult.chunk data lastChunk) =>
        if lastChunk && !cfg.hasPostParams then
          manageRetries cfg (sendChunks cfg resp fuel) st1
        else
          let req : Req := ⟨st1.chunkCount, data, lastChunk⟩
          let st2 : St := { st1 with sent := st1.sent + 1 }
          match resp st1.sent with
          | Outcome.status code =>
              if successStatus code then
                let st3 : St := { st2 with chunkCount := st2.chunkCount + 1 }
                let pct := jsRound (100 * st3.chunkCount) (totalChunks cfg)
                if st3.chunkCount < totalChunks cfg then
                  (sendChunks cfg resp fuel st3).map
                    (fun out => (Ev.progress pct :: out.1, req :: out.2))
                else
                  some ([Ev.finish, Ev.progress pct], [req])
              else if retryableStatus code then
                (manageRetries cfg (sendChunks cfg resp fuel) st2).map
                  (fun out => (out.1, req :: out.2))
              else
                some ([Ev.error (ErrMsg.serverResponded code)], [req])
          | Outcome.netError =>
              (manageRetries cfg (sendChunks cfg resp fuel) st2).map
                (fun out => (out.1, req :: out.2))

/-- Errors the constructor raises synchronously to the caller: a
`_validateParams` TypeError, or the exception of the synchronous
`fs.statSync(this.file)` call (e.g. the path does not exist). -/
inductive CtorError where
  | badParams
  | statFailure
deriving DecidableEq

/-- Filesystem behaviour for one session: whether `fs.statSync` succeeds on
the path, and whether `fs.open` succeeds. -/
structure Fs where
  statOk : Bool
  openOk : Bool

/-- The constructor followed by `_startSending`: validate parameters
(throwing synchronously on a structural error), call `fs.statSync`
synchronously (its exception propagates to the caller), then open the file
asynchronously; an open failure emits the terminal `startFail` error
without any send, otherwise `_sendChunks` runs. -/
def constructorRun (endpoint : String) (fs : Fs) (cfg : Config)
    (resp : Nat → Outcome) (fuel : Nat) :
    Except CtorError (Option (List Ev × List Req)) :=
  if endpoint.length = 0 then Except.error CtorError.badParams
  else if !fs.statOk then Except.error CtorError.statFailure
  else if !fs.openOk then Except.ok (some ([Ev.error ErrMsg.startFail], []))
  else Except.ok (sendChunks cfg resp fuel initSt)

/-- Event trace of an exhausted-budget failure loop on chunk `i` entered with
`k` retries still allowed: `fileRetry i (k-1), ..., fileRetry i 0` followed
by the terminal error. -/
def burnEvents (i : Nat) : Nat → List Ev
  | 0 => [Ev.error (ErrMsg.noMoreRetries i)]
  | k + 1 => Ev.fileRetry i k :: burnEvents i k

/-- Number of fileRetry (retry-notice) events in a trace. -/
def countFileRetry (evs : List Ev) : Nat :=
  evs.countP (fun e => match e with | Ev.fileRetry _ _ => true | _ => false)

/-- Number of progress events in a trace. -/
def countProgress (evs : List Ev) : Nat :=
  evs.countP (fun e => match e with | Ev.progress _ => true | _ => false)

/-- Whether one POST outcome is an acceptance: an HTTP status in the success
set; a transport failure never accepts. -/
def isSuccessOutcome : Outcome → Bool
  | Outcome.status code => successStatus code
  | Outcome.netError => false

/-- Number of accepted POSTs among the n consecutive requests issued from
send counter start on, under the given response oracle. -/
def countSuccesses (resp : Nat → Outcome) (start n : Nat) : Nat :=
  (List.range n).countP (fun j => isSuccessOutcome (resp (start + j)))

/-- Event trace of a failure-free run from chunk `i` with `k` chunks left
(`i + k = totalChunks`): one progress event per accepted non-final chunk,
then `finish` followed by the unconditional progress emission for the final
chunk. -/
def succEvents (tc : Nat) : Nat → Nat → List Ev
  | 0, _ => []
  | 1, _ => [Ev.finish, Ev.progress (jsRound (100 * tc) tc)]
  | k + 2, i => Ev.progress (jsRound (100 * (i + 1)) tc) :: succEvents tc (k + 1) (i + 1)

/-- Request trace of a failure-free run from chunk `i` with `k` chunks left:
chunk `j` carries the bytes at offset `j * c` and the last-chunk flag holds
exactly when fewer than `c` bytes remain. -/
def succReqs (file : List Nat) (c : Nat) : Nat → Nat → List Req
  | 0, _ => []
  | k + 1, i =>
      { chunkNumber := i,
        bytes := (file.drop (i * c)).take (min c (file.length - i * c)),
        lastFlag := decide (min c (file.length - i * c) < c) } ::
        succReqs file c k (i + 1)

/-- A one-chunk session used to exercise the response classification: a one
byte file, one-byte chunks (an exact multiple, so the single chunk is sent
without the last-chunk flag), retry budget r, post parameters present. -/
def cfgOne (r : Nat) : Config := ⟨[7], 1, r, true⟩

/-! ### Arithmetic facts about the chunk-count computation -/

/-- A chunk index is strictly below totalChunks exactly when its byte offset
is strictly inside the file. -/
theorem lt_totalChunks_iff (cfg : Config) (hc : 0 < cfg.chunkSizeBytes) (m : Nat) :
    m < totalChunks cfg ↔ m * cfg.chunkSizeBytes < cfg.file.length := by
  unfold totalChunks
  rw [Nat.lt_iff_add_one_le, Nat.le_div_iff_mul_le hc, add_one_mul]
  generalize m * cfg.chunkSizeBytes = t
  omega

/-- The file fits in totalChunks chunks. -/
theorem length_le_totalChunks_mul (cfg : Config) (hc : 0 < cfg.chunkSizeBytes) :
    cfg.file.length ≤ totalChunks cfg * cfg.chunkSizeBytes := by
  have h := lt_totalChunks_iff cfg hc (totalChunks cfg)
  omega

/-- totalChunks is positive exactly when the file is nonempty. -/
theorem totalChunks_pos_iff (cfg : Config) (hc : 0 < cfg.chunkSizeBytes) :
    0 < totalChunks cfg ↔ 0 < cfg.file.length := by
  have h := lt_totalChunks_iff cfg hc 0
  omega

/-- The rounded percentage of a completed upload is 100. -/
theorem jsRound_total (tc : Nat) (h : 0 < tc) : jsRound (100 * tc) tc = 100 := by
  unfold jsRound
  apply Nat.div_eq_of_lt_le <;> omega

/-- Closed form of the exhausted-budget trace: the retry notices count down
to zero and the terminal error follows. -/
theorem burnEvents_eq (i k : Nat) :
    burnEvents i k
      = ((List.range k).reverse.map (fun t => Ev.fileRetry i t))
        ++ [Ev.error (ErrMsg.noMoreRetries i)] := by
  induction k with
  | zero => simp [burnEvents]
  | succ k ih =>
      rw [burnEvents, ih, List.range_succ, List.reverse_append]
      simp

/-- The exhausted-budget trace never contains finish. -/
theorem finish_not_mem_burnEvents (i k : Nat) : Ev.finish ∉ burnEvents i k := by
  induction k with
  | zero => simp [burnEvents]
  | succ k ih => simp [burnEvents, ih]

/-- The exhausted-budget trace never contains a progress event. -/
theorem progress_not_mem_burnEvents (i k p : Nat) : Ev.progress p ∉ burnEvents i k := by
  induction k with
  | zero => simp [burnEvents]
  | succ k ih => simp [burnEvents, ih]

/-- The exhausted-budget trace entered with k retries allowed carries exactly
k retry notices. -/
theorem countFileRetry_burnEvents (i k : Nat) : countFileRetry (burnEvents i k) = k := by
  induction k with
  | zero => simp [burnEvents, countFileRetry]
  | succ k ih =>
      simp only [burnEvents, countFileRetry, List.countP_cons] at ih ⊢
      simp [ih]

/-- A retryable status is never a success status. -/
theorem retryable_not_success {code : Nat} (h : retryableStatus code = true) :
    successStatus code = false := by
  simp only [retryableStatus, Bool.or_eq_true, beq_iff_eq] at h
  rcases h with ((h | h) | h) | h <;> subst h <;> decide

/-! ### Step lemmas for the control loop -/

/-- Unfolding of `_manageRetries` when the budget is exhausted. -/
theorem manageRetries_exhausted (cfg : Config)
    (retry : St → Option (List Ev × List Req)) (st : St)
    (h : ¬ st.retriesCount < cfg.retries) :
    manageRetries cfg retry st
      = some ([Ev.error (ErrMsg.noMoreRetries st.chunkCount)], []) := by
  simp [manageRetries, h]

/-- Unfolding of `_manageRetries` when retries remain. -/
theorem manageRetries_retry (cfg : Config)
    (retry : St → Option (List Ev × List Req)) (st : St)
    (h : st.retriesCount < cfg.retries) :
    manageRetries cfg retry st
      = (retry { st with retriesCount := st.retriesCount + 1 }).map
          (fun out =>
            (Ev.fileRetry st.chunkCount (cfg.retries - (st.retriesCount + 1)) :: out.1,
              out.2)) := by
  simp [manageRetries, h]

/-- From a dead state (descriptor closed, or cursor at or past end of file)
one iteration of `_sendChunks` issues no request and lands in
`_manageRetries` on a state with the same chunk and retry counters and a
closed descriptor. -/
theorem step_dead (cfg : Config) (resp : Nat → Outcome) (f : Nat) (st : St)
    (hdead : st.fdOpen = false ∨ cfg.file.length ≤ st.pos) :
    ∃ st1 : St, sendChunks cfg resp (f + 1) st
        = manageRetries cfg (sendChunks cfg resp f) st1
      ∧ st1.fdOpen = false ∧ st1.chunkCount = st.chunkCount
      ∧ st1.retriesCount = st.retriesCount := by
  by_cases hfd : st.fdOpen
  · have hpos : cfg.file.length ≤ st.pos := by
      rcases hdead with h | h
      · rw [hfd] at h; exact absurd h (by simp)
      · exact h
    refine ⟨{ st with fdOpen := false }, ?_, rfl, rfl, rfl⟩
    have h0 : min cfg.chunkSizeBytes (cfg.file.length - st.pos) = 0 := by omega
    simp only [sendChunks, getChunk, hfd, if_true, h0, if_pos rfl]
  · have hfd' : st.fdOpen = false := by simpa using hfd
    refine ⟨st, ?_, hfd', rfl, rfl⟩
    simp only [sendChunks, getChunk, hfd', Bool.false_eq_true, if_false]

/-- From a dead state the session burns the remaining budget: with k retries
still allowed it emits the countdown of retry notices and the terminal
error, and issues no request at all. -/
theorem burn_noSend (cfg : Config) (resp : Nat → Outcome) :
    ∀ (k : Nat) (st : St) (fuel : Nat), k + 1 ≤ fuel →
      (st.fdOpen = false ∨ cfg.file.length ≤ st.pos) →
      st.retriesCount + k = cfg.retries →
      sendChunks cfg resp fuel st = some (burnEvents st.chunkCount k, []) := by
  intro k
  induction k with
  | zero =>
      intro st fuel hfuel hdead hrc
      obtain ⟨f, rfl⟩ : ∃ f, fuel = f + 1 := ⟨fuel - 1, by omega⟩
      obtain ⟨st1, heq, hfd1, hcc1, hrc1⟩ := step_dead cfg resp f st hdead
      rw [heq, manageRetries_exhausted cfg _ st1 (by omega), hcc1, burnEvents]
  | succ k ih =>
      intro st fuel hfuel hdead hrc
      obtain ⟨f, rfl⟩ : ∃ f, fuel = f + 1 := ⟨fuel - 1, by omega⟩
      obtain ⟨st1, heq, hfd1, hcc1, hrc1⟩ := step_dead cfg resp f st hdead
      rw [heq, manageRetries_retry cfg _ st1 (by omega)]
      rw [ih { st1 with retriesCount := st1.retriesCount + 1 } f (by omega)
        (Or.inl hfd1) (by simp; omega)]
      simp only [Option.map_some]
      rw [burnEvents]
      have h1 : cfg.retries - (st1.retriesCount + 1) = k := by omega
      simp [hcc1, h1]

/-- When the response oracle always answers with one fixed retryable status,
one iteration of `_sendChunks` (from any state) issues at most one request,
carrying the current chunk number, and lands in `_manageRetries` on a state
with the same chunk and retry counters. -/
theorem step_retryable (cfg : Config) (resp : Nat → Outcome) (code : Nat)
    (hresp : ∀ n, resp n = Outcome.status code)
    (hcode : retryableStatus code = true) (f : Nat) (st : St) :
    ∃ (st1 : St) (pre : List Req),
      sendChunks cfg resp (f + 1) st
        = (manageRetries cfg (sendChunks cfg resp f) st1).map
            (fun out => (out.1, pre ++ out.2))
      ∧ st1.chunkCount = st.chunkCount ∧ st1.retriesCount = st.retriesCount
      ∧ ∀ q ∈ pre, q.chunkNumber = st.chunkCount := by
  have hns : successStatus code = false := retryable_not_success hcode
  have hid : ∀ x : Option (List Ev × List Req),
      x = x.map (fun out => (out.1, ([] : List Req) ++ out.2)) :=
    fun x => (congrFun Option.map_id x).symm
  by_cases hfd : st.fdOpen
  · by_cases h0 : min cfg.chunkSizeBytes (cfg.file.length - st.pos) = 0
    · refine ⟨{ st with fdOpen := false }, [], ?_, rfl, rfl, by simp⟩
      simp only [sendChunks, getChunk, hfd, if_true, h0, if_pos rfl]
      apply hid
    · by_cases hthrow :
        (decide (min cfg.chunkSizeBytes (cfg.file.length - st.pos)
          < cfg.chunkSizeBytes) && !cfg.hasPostParams) = true
      · refine ⟨{ st with pos := st.pos + min cfg.chunkSizeBytes (cfg.file.length - st.pos) },
          [], ?_, rfl, rfl, by simp⟩
        simp only [sendChunks, getChunk, hfd, if_true, if_neg h0, hthrow, if_true]
        apply hid
      · refine ⟨{ st with
            pos := st.pos + min cfg.chunkSizeBytes (cfg.file.length - st.pos),
            sent := st.sent + 1 },
          [⟨st.chunkCount,
            (cfg.file.drop st.pos).take (min cfg.chunkSizeBytes (cfg.file.length - st.pos)),
            decide (min cfg.chunkSizeBytes (cfg.file.length - st.pos)
              < cfg.chunkSizeBytes)⟩], ?_, rfl, rfl, by simp⟩
        simp only [sendChunks, getChunk, hfd, if_true, if_neg h0]
        rw [if_neg hthrow]
        simp only [hresp, hns, hcode, Bool.false_eq_true, if_false, if_true]
        rfl
  · have hfd' : st.fdOpen = false := by simpa using hfd
    refine ⟨st, [], ?_, rfl, rfl, by simp⟩
    simp only [sendChunks, getChunk, hfd', Bool.false_eq_true, if_false]
    apply hid

/-- When the oracle always answers with one fixed retryable status, a state
with k retries still allowed burns the whole remaining budget: the retry
notices count down, the terminal error follows, and every request issued on
the way carries the stuck chunk number. -/
theorem burn_retryable (cfg : Config) (resp : Nat → Outcome) (code : Nat)
    (hresp : ∀ n, resp n = Outcome.status code)
    (hcode : retryableStatus code = true) :
    ∀ (k : Nat) (st : St) (fuel : Nat), k + 1 ≤ fuel →
      st.retriesCount + k = cfg.retries →
      ∃ reqs, sendChunks cfg resp fuel st = some (burnEvents st.chunkCount k, reqs)
        ∧ ∀ q ∈ reqs, q.chunkNumber = st.chunkCount := by
  intro k
  induction k with
  | zero =>
      intro st fuel hfuel hrc
      obtain ⟨f, rfl⟩ : ∃ f, fuel = f + 1 := ⟨fuel - 1, by omega⟩
      obtain ⟨st1, pre, heq, hcc1, hrc1, hpre⟩ :=
        step_retryable cfg resp code hresp hcode f st
      refine ⟨pre, ?_, hpre⟩
      rw [heq, manageRetries_exhausted cfg _ st1 (by omega), hcc1, burnEvents]
      simp
  | succ k ih =>
      intro st fuel hfuel hrc
      obtain ⟨f, rfl⟩ : ∃ f, fuel = f + 1 := ⟨fuel - 1, by omega⟩
      obtain ⟨st1, pre, heq, hcc1, hrc1, hpre⟩ :=
        step_retryable cfg resp code hresp hcode f st
      obtain ⟨reqs, hrun, hreqs⟩ :=
        ih { st1 with retriesCount := st1.retriesCount + 1 } f (by omega)
          (by simp; omega)
      refine ⟨pre ++ reqs, ?_, ?_⟩
      · rw [heq, manageRetries_retry cfg _ st1 (by omega), hrun]
        simp only [Option.map_some]
        rw [burnEvents]
        have h1 : cfg.retries - (st1.retriesCount + 1) = k := by omega
        simp [hcc1, h1]
      · intro q hq
        rcases List.mem_append.mp hq with h | h
        · exact hpre q h
        · rw [← hcc1]; exact hreqs q h

/-- Accepting a non-final chunk: from an open state whose cursor sits at the
chunk boundary, with at least two chunks left and a 200 response, one
iteration reads a full chunk, sends it without the last-chunk flag, emits
the progress event for the incremented counter and recurses on the advanced
state. -/
theorem step_full (cfg : Config) (resp : Nat → Outcome)
    (hc : 0 < cfg.chunkSizeBytes) (f : Nat) (st : St)
    (hfd : st.fdOpen = true) (hpos : st.pos = st.chunkCount * cfg.chunkSizeBytes)
    (hlt : st.chunkCount + 1 < totalChunks cfg)
    (h200 : resp st.sent = Outcome.status 200) :
    sendChunks cfg resp (f + 1) st
      = (sendChunks cfg resp f
          { st with
            pos := st.chunkCount * cfg.chunkSizeBytes + cfg.chunkSizeBytes,
            chunkCount := st.chunkCount + 1, sent := st.sent + 1 }).map
          (fun out =>
            (Ev.progress (jsRound (100 * (st.chunkCount + 1)) (totalChunks cfg)) :: out.1,
              (⟨st.chunkCount,
                (cfg.file.drop (st.chunkCount * cfg.chunkSizeBytes)).take cfg.chunkSizeBytes,
                false⟩ : Req) :: out.2)) := by
  have hin : (st.chunkCount + 1) * cfg.chunkSizeBytes < cfg.file.length :=
    (lt_totalChunks_iff cfg hc (st.chunkCount + 1)).mp hlt
  rw [add_one_mul] at hin
  have hmin : min cfg.chunkSizeBytes (cfg.file.length - st.pos) = cfg.chunkSizeBytes := by
    rw [hpos]; omega
  have hfalse : decide (cfg.chunkSizeBytes < cfg.chunkSizeBytes) = false := by simp
  have hsucc : successStatus 200 = true := by decide
  simp only [sendChunks, getChunk, hfd, if_true, hmin, if_neg (by omega :
    ¬ cfg.chunkSizeBytes = 0), hfalse, Bool.false_and, Bool.false_eq_true, if_false,
    h200, hsucc, if_pos hlt]
  rw [hpos]

/-- A failure-free run: with every response 200 and post parameters present,
a session at chunk boundary i with k chunks left produces exactly the
predicted event and request traces. -/
theorem run_allSuccess (cfg : Config) (resp : Nat → Outcome)
    (hc : 0 < cfg.chunkSizeBytes) (hpp : cfg.hasPostParams = true)
    (hresp : ∀ n, resp n = Outcome.status 200) :
    ∀ (k : Nat) (st : St) (fuel : Nat), 0 < k → k + 1 ≤ fuel →
      st.fdOpen = true → st.chunkCount + k = totalChunks cfg →
      st.pos = st.chunkCount * cfg.chunkSizeBytes →
      sendChunks cfg resp fuel st
        = some (succEvents (totalChunks cfg) k st.chunkCount,
            succReqs cfg.file cfg.chunkSizeBytes k st.chunkCount) := by
  intro k
  induction k with
  | zero => intro st fuel h0k; omega
  | succ k ih =>
      intro st fuel _ hfuel hfd hcc hpos
      obtain ⟨f, rfl⟩ : ∃ f, fuel = f + 1 := ⟨fuel - 1, by omega⟩
      cases k with
      | zero =>
          have hi : st.chunkCount * cfg.chunkSizeBytes < cfg.file.length :=
            (lt_totalChunks_iff cfg hc st.chunkCount).mp (by omega)
          have hne : ¬ min cfg.chunkSizeBytes (cfg.file.length - st.pos) = 0 := by
            rw [hpos]; omega
          simp only [sendChunks, getChunk, hfd, if_true, if_neg hne, hpp,
            Bool.not_true, Bool.and_false, Bool.false_eq_true, if_false, hresp]
          have hsucc : successStatus 200 = true := by decide
          have hstop : ¬ st.chunkCount + 1 < totalChunks cfg := by omega
          simp only [hsucc, if_true, if_neg hstop]
          show _ = some (succEvents (totalChunks cfg) 1 st.chunkCount,
            succReqs cfg.file cfg.chunkSizeBytes 1 st.chunkCount)
          rw [succEvents, succReqs, succReqs]
          rw [← hcc, hpos]
      | succ k' =>
          rw [step_full cfg resp hc f st hfd hpos (by omega) (hresp st.sent)]
          rw [ih { st with
                pos := st.chunkCount * cfg.chunkSizeBytes + cfg.chunkSizeBytes,
                chunkCount := st.chunkCount + 1, sent := st.sent + 1 } f
            (by omega) (by omega) hfd (by simp; omega) (by simp [add_one_mul])]
          simp only [Option.map_some]
          have hmin : min cfg.chunkSizeBytes
              (cfg.file.length - st.chunkCount * cfg.chunkSizeBytes)
              = cfg.chunkSizeBytes := by
            have hin : (st.chunkCount + 1) * cfg.chunkSizeBytes < cfg.file.length :=
              (lt_totalChunks_iff cfg hc (st.chunkCount + 1)).mp (by omega)
            rw [add_one_mul] at hin
            omega
          have hfalse : decide (cfg.chunkSizeBytes < cfg.chunkSizeBytes) = false := by simp
          have hev : succEvents (totalChunks cfg) (k' + 1 + 1) st.chunkCount
              = Ev.progress (jsRound (100 * (st.chunkCount + 1)) (totalChunks cfg))
                :: succEvents (totalChunks cfg) (k' + 1) (st.chunkCount + 1) := rfl
          have hre : succReqs cfg.file cfg.chunkSizeBytes (k' + 1 + 1) st.chunkCount
              = { chunkNumber := st.chunkCount,
                  bytes := (cfg.file.drop (st.chunkCount * cfg.chunkSizeBytes)).take
                    (min cfg.chunkSizeBytes
                      (cfg.file.length - st.chunkCount * cfg.chunkSizeBytes)),
                  lastFlag := decide (min cfg.chunkSizeBytes
                    (cfg.file.length - st.chunkCount * cfg.chunkSizeBytes)
                    < cfg.chunkSizeBytes) } ::
                succReqs cfg.file cfg.chunkSizeBytes (k' + 1) (st.chunkCount + 1) := rfl
          rw [hev, hre, hmin, hfalse]
          rfl

/-- The predicted request trace has one request per remaining chunk. -/
theorem succReqs_length (file : List Nat) (c : Nat) :
    ∀ k i, (succReqs file c k i).length = k := by
  intro k
  induction k with
  | zero => intro i; simp [succReqs]
  | succ k ih => intro i; simp [succReqs, ih]

/-- Every request in the predicted trace whose chunk number is not the final
index carries exactly a full chunk of bytes. -/
theorem succReqs_bytes_full (cfg : Config) (hc : 0 < cfg.chunkSizeBytes) :
    ∀ k i, i + k = totalChunks cfg →
      ∀ q ∈ succReqs cfg.file cfg.chunkSizeBytes k i,
        q.chunkNumber + 1 < totalChunks cfg → q.bytes.length = cfg.chunkSizeBytes := by
  intro k
  induction k with
  | zero => intro i hik q hq; simp [succReqs] at hq
  | succ k ih =>
      intro i hik q hq hlt
      rw [succReqs] at hq
      rcases List.mem_cons.mp hq with h | h
      · subst h
        simp only [List.length_take, List.length_drop]
        have hin : (i + 1) * cfg.chunkSizeBytes < cfg.file.length :=
          (lt_totalChunks_iff cfg hc (i + 1)).mp (by simpa using hlt)
        rw [add_one_mul] at hin
        omega
      · exact ih (i + 1) (by omega) q h hlt

/-- The bytes of the predicted request trace from chunk i sum to the part of
the file from offset i * c on. -/
theorem succReqs_bytes_sum (cfg : Config) (hc : 0 < cfg.chunkSizeBytes) :
    ∀ k i, i + k = totalChunks cfg →
      ((succReqs cfg.file cfg.chunkSizeBytes k i).map (fun q => q.bytes.length)).sum
        = cfg.file.length - i * cfg.chunkSizeBytes := by
  intro k
  induction k with
  | zero =>
      intro i hik
      rw [Nat.add_zero] at hik
      have hle : cfg.file.length ≤ totalChunks cfg * cfg.chunkSizeBytes :=
        length_le_totalChunks_mul cfg hc
      rw [← hik] at hle
      simp only [succReqs, List.map_nil, List.sum_nil]
      omega
  | succ k ih =>
      intro i hik
      rw [succReqs]
      simp only [List.map_cons, List.sum_cons, List.length_take, List.length_drop]
      rw [ih (i + 1) (by omega)]
      have hi : i * cfg.chunkSizeBytes < cfg.file.length :=
        (lt_totalChunks_iff cfg hc i).mp (by omega)
      rw [add_one_mul]
      generalize i * cfg.chunkSizeBytes = t at *
      omega

/-- The predicted event trace of a failure-free run is a list of progress
events for the intermediate chunk counters followed by finish and the
closing progress emission. -/
theorem succEvents_decomp (tc : Nat) :
    ∀ k i, 0 < k → i + k = tc →
      ∃ pre, succEvents tc k i
          = pre ++ [Ev.finish, Ev.progress (jsRound (100 * tc) tc)]
        ∧ ∀ e ∈ pre, ∃ m, i < m ∧ m < tc ∧ e = Ev.progress (jsRound (100 * m) tc) := by
  intro k
  induction k with
  | zero => intro i h0; omega
  | succ k ih =>
      intro i _ hik
      cases k with
      | zero => exact ⟨[], by simp [succEvents], by simp⟩
      | succ k' =>
          obtain ⟨pre, hpre, hmem⟩ := ih (i + 1) (by omega) (by omega)
          refine ⟨Ev.progress (jsRound (100 * (i + 1)) tc) :: pre, ?_, ?_⟩
          · show succEvents tc (k' + 2) i = _
            rw [succEvents, hpre]
            simp
          · intro e he
            rcases List.mem_cons.mp he with h | h
            · exact ⟨i + 1, by omega, by omega, h⟩
            · obtain ⟨m, h1, h2, h3⟩ := hmem e h
              exact ⟨m, by omega, h2, h3⟩

/-- `_getChunk` never touches the chunk counter, the retry counter or the
send counter. -/
theorem getChunk_counters (cfg : Config) (st : St) :
    ((getChunk cfg st).1).retriesCount = st.retriesCount
    ∧ ((getChunk cfg st).1).chunkCount = st.chunkCount
    ∧ ((getChunk cfg st).1).sent = st.sent := by
  unfold getChunk
  by_cases hfd : st.fdOpen
  · simp only [hfd, if_true]
    by_cases h0 : min cfg.chunkSizeBytes (cfg.file.length - st.pos) = 0
    · simp [h0]
    · simp [h0]
  · simp [hfd]

/-- Across one whole session the number of retry notices plus the retry
counter at entry never exceeds the retry budget: the counter is never reset,
so the budget bounds the total number of transient failures of the session,
not the failures of a single chunk. -/
theorem countFileRetry_le (cfg : Config) (resp : Nat → Outcome) :
    ∀ (fuel : Nat) (st : St) (evs : List Ev) (reqs : List Req),
      st.retriesCount ≤ cfg.retries →
      sendChunks cfg resp fuel st = some (evs, reqs) →
      countFileRetry evs + st.retriesCount ≤ cfg.retries := by
  intro fuel
  induction fuel with
  | zero =>
      intro st evs reqs _ h
      simp [sendChunks] at h
  | succ f ih =>
      intro st evs reqs hrc h
      have hman : ∀ (st1 : St) (evs1 : List Ev) (reqs1 : List Req),
          st1.retriesCount ≤ cfg.retries →
          manageRetries cfg (sendChunks cfg resp f) st1 = some (evs1, reqs1) →
          countFileRetry evs1 + st1.retriesCount ≤ cfg.retries := by
        intro st1 evs1 reqs1 hrc1 hm
        by_cases hlt : st1.retriesCount < cfg.retries
        · rw [manageRetries_retry _ _ _ hlt] at hm
          obtain ⟨⟨evs2, reqs2⟩, hrun, hout⟩ := Option.map_eq_some'.mp hm
          injection hout with h1 h2
          subst h1
          have hb := ih { st1 with retriesCount := st1.retriesCount + 1 } evs2 reqs2
            (by simp; omega) hrun
          simp only [countFileRetry, List.countP_cons] at hb ⊢
          simp at hb ⊢
          omega
        · rw [manageRetries_exhausted _ _ _ hlt] at hm
          injection hm with hm2
          injection hm2 with h1 h2
          subst h1
          simp [countFileRetry]
          omega
      have hmanmap : ∀ (st1 : St) (q : Req) (evs1 : List Ev) (reqs1 : List Req),
          st1.retriesCount ≤ cfg.retries →
          (manageRetries cfg (sendChunks cfg resp f) st1).map
              (fun out => (out.1, q :: out.2)) = some (evs1, reqs1) →
          countFileRetry evs1 + st1.retriesCount ≤ cfg.retries := by
        intro st1 q evs1 reqs1 hrc1 hm
        obtain ⟨⟨evs2, reqs2⟩, hrun, hout⟩ := Option.map_eq_some'.mp hm
        injection hout with h1 h2
        subst h1
        exact hman st1 evs2 reqs2 hrc1 hrun
      simp only [sendChunks] at h
      split at h
      case _ st1 heq =>
        obtain ⟨hrc1, hcc1, hsent1⟩ := getChunk_counters cfg st
        rw [heq] at hrc1
        have := hman st1 evs reqs (by simp at hrc1; omega) h
        simp at hrc1
        omega
      case _ st1 heq =>
        obtain ⟨hrc1, hcc1, hsent1⟩ := getChunk_counters cfg st
        rw [heq] at hrc1
        have := hman st1 evs reqs (by simp at hrc1; omega) h
        simp at hrc1
        omega
      case _ st1 data lastChunk heq =>
        obtain ⟨hrc1, hcc1, hsent1⟩ := getChunk_counters cfg st
        rw [heq] at hrc1
        simp only at hrc1
        split at h
        · have := hman st1 evs reqs (by omega) h
          omega
        · split at h
          case _ code heq2 =>
            split at h
            · split at h
              · obtain ⟨⟨evs2, reqs2⟩, hrun, hout⟩ := Option.map_eq_some'.mp h
                injection hout with h1 h2
                subst h1
                have hb := ih _ evs2 reqs2 (by simp; omega) hrun
                simp only [countFileRetry, List.countP_cons] at hb ⊢
                simp at hb ⊢
                omega
              · injection h with hm2
                injection hm2 with h1 h2
                subst h1
                simp [countFileRetry]
                omega
            · split at h
              · have := hmanmap _ _ evs reqs (by simp; omega) h
                simp at this
                omega
              · injection h with hm2
                injection hm2 with h1 h2
                subst h1
                simp [countFileRetry]
                omega
          case _ heq2 =>
            have := hmanmap _ _ evs reqs (by simp; omega) h
            simp at this
            omega

/-- No POST issued counts as zero acceptances. -/
theorem countSuccesses_zero (resp : Nat → Outcome) (start : Nat) :
    countSuccesses resp start 0 = 0 := by
  simp [countSuccesses]

/-- Acceptances among n + 1 consecutive POSTs split into the first POST and
the n POSTs after it. -/
theorem countSuccesses_succ (resp : Nat → Outcome) (start n : Nat) :
    countSuccesses resp start (n + 1)
      = (if isSuccessOutcome (resp start) = true then 1 else 0)
        + countSuccesses resp (start + 1) n := by
  unfold countSuccesses
  rw [List.range_succ_eq_map, List.countP_cons, List.countP_map]
  have harg : ((fun j => isSuccessOutcome (resp (start + j))) ∘ Nat.succ)
      = fun j => isSuccessOutcome (resp (start + 1 + j)) := by
    funext j
    simp only [Function.comp_apply]
    rw [show start + 1 + j = start + Nat.succ j from by omega]
  rw [harg]
  simp [Nat.add_comm]

/-- Across any completed session, under an arbitrary oracle, the number of
progress events equals the number of POSTs answered with a success status:
exactly one progress emission per accepted chunk, and none on a failed,
retried or thrown attempt. -/
theorem countProgress_eq (cfg : Config) (resp : Nat → Outcome) :
    ∀ (fuel : Nat) (st : St) (evs : List Ev) (reqs : List Req),
      sendChunks cfg resp fuel st = some (evs, reqs) →
      countProgress evs = countSuccesses resp st.sent reqs.length := by
  intro fuel
  induction fuel with
  | zero =>
      intro st evs reqs h
      simp [sendChunks] at h
  | succ f ih =>
      intro st evs reqs h
      have hman : ∀ (st1 : St) (evs1 : List Ev) (reqs1 : List Req),
          manageRetries cfg (sendChunks cfg resp f) st1 = some (evs1, reqs1) →
          countProgress evs1 = countSuccesses resp st1.sent reqs1.length := by
        intro st1 evs1 reqs1 hm
        by_cases hlt : st1.retriesCount < cfg.retries
        · rw [manageRetries_retry _ _ _ hlt] at hm
          obtain ⟨⟨evs2, reqs2⟩, hrun, hout⟩ := Option.map_eq_some'.mp hm
          injection hout with h1 h2
          subst h1; subst h2
          have hb : countProgress evs2 = countSuccesses resp st1.sent reqs2.length :=
            ih { st1 with retriesCount := st1.retriesCount + 1 } evs2 reqs2 hrun
          simpa [countProgress, List.countP_cons] using hb
        · rw [manageRetries_exhausted _ _ _ hlt] at hm
          injection hm with hm2
          injection hm2 with h1 h2
          subst h1; subst h2
          simp [countProgress, countSuccesses]
      simp only [sendChunks] at h
      split at h
      case _ st1 heq =>
        obtain ⟨_, _, hsent1⟩ := getChunk_counters cfg st
        rw [heq] at hsent1
        simp only at hsent1
        rw [← hsent1]
        exact hman st1 evs reqs h
      case _ st1 heq =>
        obtain ⟨_, _, hsent1⟩ := getChunk_counters cfg st
        rw [heq] at hsent1
        simp only at hsent1
        rw [← hsent1]
        exact hman st1 evs reqs h
      case _ st1 data lastChunk heq =>
        obtain ⟨_, _, hsent1⟩ := getChunk_counters cfg st
        rw [heq] at hsent1
        simp only at hsent1
        split at h
        · rw [← hsent1]
          exact hman st1 evs reqs h
        · split at h
          case _ code heq2 =>
            split at h
            next hsucc =>
              split at h
              · obtain ⟨⟨evs2, reqs2⟩, hrun, hout⟩ := Option.map_eq_some'.mp h
                injection hout with h1 h2
                subst h1; subst h2
                have hb : countProgress evs2
                    = countSuccesses resp (st1.sent + 1) reqs2.length :=
                  ih _ evs2 reqs2 hrun
                rw [← hsent1, List.length_cons, countSuccesses_succ, heq2]
                simp only [countProgress, List.countP_cons] at hb ⊢
                simp [isSuccessOutcome, hsucc]
                omega
              · injection h with hm2
                injection hm2 with h1 h2
                subst h1; subst h2
                rw [← hsent1, List.length_cons, countSuccesses_succ, heq2]
                simp [countProgress, isSuccessOutcome, hsucc, countSuccesses]
            next hsucc =>
              split at h
              · obtain ⟨⟨evs2, reqs2⟩, hrun, hout⟩ := Option.map_eq_some'.mp h
                injection hout with h1 h2
                subst h1; subst h2
                have hb : countProgress evs2
                    = countSuccesses resp (st1.sent + 1) reqs2.length :=
                  hman _ evs2 reqs2 hrun
                rw [← hsent1, List.length_cons, countSuccesses_succ, heq2]
                simp only [Bool.not_eq_true] at hsucc
                simp [isSuccessOutcome, hsucc, hb]
              · injection h with hm2
                injection hm2 with h1 h2
                subst h1; subst h2
                rw [← hsent1, List.length_cons, countSuccesses_succ, heq2]
                simp only [Bool.not_eq_true] at hsucc
                simp [countProgress, isSuccessOutcome, hsucc, countSuccesses]
          case _ heq2 =>
            obtain ⟨⟨evs2, reqs2⟩, hrun, hout⟩ := Option.map_eq_some'.mp h
            injection hout with h1 h2
            subst h1; subst h2
            have hb : countProgress evs2
                = countSuccesses resp (st1.sent + 1) reqs2.length :=
              hman _ evs2 reqs2 hrun
            rw [← hsent1, List.length_cons, countSuccesses_succ, heq2]
            simp [isSuccessOutcome, hb]

/-- Across any completed session that starts strictly below totalChunks,
under an arbitrary oracle, every progress event carries the rounded
percentage of an acceptance counter: round(100 * m / totalChunks) with the
entry chunk counter < m ≤ totalChunks. -/
theorem progress_values (cfg : Config) (resp : Nat → Outcome) :
    ∀ (fuel : Nat) (st : St) (evs : List Ev) (reqs : List Req),
      st.chunkCount < totalChunks cfg →
      sendChunks cfg resp fuel st = some (evs, reqs) →
      ∀ p, Ev.progress p ∈ evs →
        ∃ m, st.chunkCount < m ∧ m ≤ totalChunks cfg
          ∧ p = jsRound (100 * m) (totalChunks cfg) := by
  intro fuel
  induction fuel with
  | zero =>
      intro st evs reqs _ h
      simp [sendChunks] at h
  | succ f ih =>
      intro st evs reqs hcc h
      have hman : ∀ (st1 : St) (evs1 : List Ev) (reqs1 : List Req),
          st1.chunkCount < totalChunks cfg →
          manageRetries cfg (sendChunks cfg resp f) st1 = some (evs1, reqs1) →
          ∀ p, Ev.progress p ∈ evs1 →
            ∃ m, st1.chunkCount < m ∧ m ≤ totalChunks cfg
              ∧ p = jsRound (100 * m) (totalChunks cfg) := by
        intro st1 evs1 reqs1 hcc1 hm p hp
        by_cases hlt : st1.retriesCount < cfg.retries
        · rw [manageRetries_retry _ _ _ hlt] at hm
          obtain ⟨⟨evs2, reqs2⟩, hrun, hout⟩ := Option.map_eq_some'.mp hm
          injection hout with h1 h2
          subst h1; subst h2
          rcases List.mem_cons.mp hp with hp | hp
          · simp at hp
          · exact ih { st1 with retriesCount := st1.retriesCount + 1 } evs2 reqs2
              hcc1 hrun p hp
        · rw [manageRetries_exhausted _ _ _ hlt] at hm
          injection hm with hm2
          injection hm2 with h1 h2
          subst h1; subst h2
          simp at hp
      simp only [sendChunks] at h
      split at h
      case _ st1 heq =>
        obtain ⟨_, hcc1, _⟩ := getChunk_counters cfg st
        rw [heq] at hcc1
        simp only at hcc1
        rw [← hcc1]
        exact hman st1 evs reqs (by omega) h
      case _ st1 heq =>
        obtain ⟨_, hcc1, _⟩ := getChunk_counters cfg st
        rw [heq] at hcc1
        simp only at hcc1
        rw [← hcc1]
        exact hman st1 evs reqs (by omega) h
      case _ st1 data lastChunk heq =>
        obtain ⟨_, hcc1, _⟩ := getChunk_counters cfg st
        rw [heq] at hcc1
        simp only at hcc1
        split at h
        · rw [← hcc1]
          exact hman st1 evs reqs (by omega) h
        · split at h
          case _ code heq2 =>
            split at h
            · split at h
              next hadv =>
                obtain ⟨⟨evs2, reqs2⟩, hrun, hout⟩ := Option.map_eq_some'.mp h
                injection hout with h1 h2
                subst h1; subst h2
                intro p hp
                rcases List.mem_cons.mp hp with hp | hp
                · injection hp with hpv
                  subst hpv
                  exact ⟨st1.chunkCount + 1, by omega, by omega, rfl⟩
                · obtain ⟨m, hm1, hm2, hm3⟩ := ih _ evs2 reqs2 (by simpa using hadv)
                    hrun p hp
                  simp only at hm1
                  exact ⟨m, by omega, hm2, hm3⟩
              next hadv =>
                injection h with hm2
                injection hm2 with h1 h2
                subst h1; subst h2
                intro p hp
                simp only [List.mem_cons, List.not_mem_nil, or_false] at hp
                rcases hp with hp | hp
                · simp at hp
                · injection hp with hpv
                  subst hpv
                  exact ⟨st1.chunkCount + 1, by omega, by omega, rfl⟩
            · split at h
              · obtain ⟨⟨evs2, reqs2⟩, hrun, hout⟩ := Option.map_eq_some'.mp h
                injection hout with h1 h2
                subst h1; subst h2
                intro p hp
                obtain ⟨m, hm1, hm2, hm3⟩ := hman _ evs2 reqs2 (by simp; omega)
                  hrun p hp
                simp only at hm1
                exact ⟨m, by omega, hm2, hm3⟩
              · injection h with hm2
                injection hm2 with h1 h2
                subst h1; subst h2
                intro p hp
                simp at hp
          case _ heq2 =>
            obtain ⟨⟨evs2, reqs2⟩, hrun, hout⟩ := Option.map_eq_some'.mp h
            injection hout with h1 h2
            subst h1; subst h2
            intro p hp
            obtain ⟨m, hm1, hm2, hm3⟩ := hman _ evs2 reqs2 (by simp; omega)
              hrun p hp
            simp only at hm1
            exact ⟨m, by omega, hm2, hm3⟩

/-- `_manageRetries` entered on a dead state (closed descriptor or exhausted
file) with k retries still allowed produces the burn trace and no request. -/
theorem manage_noSend (cfg : Config) (resp : Nat → Outcome)
    (k : Nat) (st1 : St) (f : Nat) (hf : k + 1 ≤ f)
    (hdead : st1.fdOpen = false ∨ cfg.file.length ≤ st1.pos)
    (hrc : st1.retriesCount + k = cfg.retries) :
    manageRetries cfg (sendChunks cfg resp f) st1
      = some (burnEvents st1.chunkCount k, []) := by
  cases k with
  | zero =>
      rw [manageRetries_exhausted _ _ _ (by omega)]
      rfl
  | succ k' =>
      rw [manageRetries_retry _ _ _ (by omega)]
      rw [burn_noSend cfg resp k' { st1 with retriesCount := st1.retriesCount + 1 } f
        (by omega)
        (by rcases hdead with hd | hd
            · exact Or.inl (by simpa using hd)
            · exact Or.inr (by simpa using hd))
        (by simp; omega)]
      simp only [Option.map_some]
      rw [burnEvents]
      have h1 : cfg.retries - (st1.retriesCount + 1) = k' := by omega
      simp [h1]

/-- With no post parameters and an all-200 oracle, a session at chunk
boundary i with k chunks left uploads the non-final chunks normally, then
the last-chunk request construction throws before any POST is issued and
the whole remaining retry budget burns: the trace is the progress prefix
followed by the burn trace on the final index, only the non-final chunks
are ever sent (none of them flagged last), and finish never fires. -/
theorem run_noPostParams (cfg : Config) (resp : Nat → Outcome)
    (hc : 0 < cfg.chunkSizeBytes) (hpp : cfg.hasPostParams = false)
    (hnd : ¬ cfg.chunkSizeBytes ∣ cfg.file.length)
    (hresp : ∀ n, resp n = Outcome.status 200) :
    ∀ (k : Nat) (st : St) (fuel : Nat), 0 < k → k + cfg.retries + 2 ≤ fuel →
      st.fdOpen = true → st.retriesCount = 0 →
      st.chunkCount + k = totalChunks cfg →
      st.pos = st.chunkCount * cfg.chunkSizeBytes →
      ∃ pre reqs,
        sendChunks cfg resp fuel st
          = some (pre ++ burnEvents (totalChunks cfg - 1) cfg.retries, reqs)
        ∧ (∀ e ∈ pre, ∃ m, st.chunkCount < m ∧ m < totalChunks cfg
            ∧ e = Ev.progress (jsRound (100 * m) (totalChunks cfg)))
        ∧ (∀ q ∈ reqs, q.lastFlag = false)
        ∧ reqs.length = k - 1 := by
  intro k
  induction k with
  | zero => intro st fuel h0; omega
  | succ k ih =>
      intro st fuel _ hfuel hfd hrc hcc hpos
      obtain ⟨f, rfl⟩ : ∃ f, fuel = f + 1 := ⟨fuel - 1, by omega⟩
      cases k with
      | zero =>
          have hi : st.chunkCount * cfg.chunkSizeBytes < cfg.file.length :=
            (lt_totalChunks_iff cfg hc st.chunkCount).mp (by omega)
          have hcc2 : st.chunkCount + 1 = totalChunks cfg := by omega
          have hup : cfg.file.length < st.chunkCount * cfg.chunkSizeBytes
              + cfg.chunkSizeBytes := by
            have hle : cfg.file.length ≤ totalChunks cfg * cfg.chunkSizeBytes :=
              length_le_totalChunks_mul cfg hc
            rw [← hcc2, add_one_mul] at hle
            rcases Nat.lt_or_ge cfg.file.length
              (st.chunkCount * cfg.chunkSizeBytes + cfg.chunkSizeBytes) with hlt | hge
            · exact hlt
            · exfalso
              apply hnd
              have hsq : cfg.file.length
                  = (st.chunkCount + 1) * cfg.chunkSizeBytes := by
                rw [add_one_mul]; omega
              exact ⟨st.chunkCount + 1, by rw [hsq, Nat.mul_comm]⟩
          have hne : ¬ min cfg.chunkSizeBytes (cfg.file.length - st.pos) = 0 := by
            rw [hpos]; omega
          have hlast : decide (min cfg.chunkSizeBytes (cfg.file.length - st.pos)
              < cfg.chunkSizeBytes) = true := by
            rw [hpos]
            simp only [decide_eq_true_eq]
            omega
          simp only [sendChunks, getChunk, hfd, if_true, if_neg hne, hlast, hpp,
            Bool.not_false, Bool.true_and, if_true]
          rw [manage_noSend cfg resp cfg.retries _ f (by omega)
            (Or.inr (by simp only [hpos]; omega)) (by simp [hrc])]
          refine ⟨[], [], ?_, by simp, by simp, by simp⟩
          simp only [List.nil_append]
          have hcc1 : st.chunkCount = totalChunks cfg - 1 := by omega
          rw [hcc1]
      | succ k' =>
          rw [step_full cfg resp hc f st hfd hpos (by omega) (hresp st.sent)]
          obtain ⟨pre, reqs, hrun, hpre, hflags, hlen⟩ :=
            ih { st with
                pos := st.chunkCount * cfg.chunkSizeBytes + cfg.chunkSizeBytes,
                chunkCount := st.chunkCount + 1, sent := st.sent + 1 } f
              (by omega) (by omega) hfd hrc (by simp; omega) (by simp [add_one_mul])
          rw [hrun]
          refine ⟨Ev.progress (jsRound (100 * (st.chunkCount + 1)) (totalChunks cfg))
              :: pre,
            (⟨st.chunkCount,
              (cfg.file.drop (st.chunkCount * cfg.chunkSizeBytes)).take
                cfg.chunkSizeBytes, false⟩ : Req) :: reqs, by simp, ?_, ?_, by simp [hlen]⟩
          · intro e he
            rcases List.mem_cons.mp he with h | h
            · exact ⟨st.chunkCount + 1, by omega, by omega, h⟩
            · obtain ⟨m, h1, h2, h3⟩ := hpre e h
              simp only at h1
              exact ⟨m, by omega, h2, h3⟩
          · intro q hq
            rcases List.mem_cons.mp hq with h | h
            · rw [h]
            · exact hflags q h

/-! ### Claim theorems -/

/-- C1: for every send attempt the controller classifies the response status
exactly into the three sets of the spec.  On a one-chunk session with budget
r and a constant status v oracle: a success status (200/201/204) accepts the
chunk and, the chunk being last, finishes; a retryable status (408/502/503/
504) invokes the retry policy, producing the retry-notice countdown; any
other status (e.g. 403) immediately emits the single terminal error naming
the status, with zero retry notices and no retries consumed, for every
remaining budget r. -/
theorem C1_status_classification (v r : Nat) (hr : 0 < r) :
    ((successStatus v = true) →
      sendChunks (cfgOne r) (fun _ => Outcome.status v) (r + 2) initSt
        = some ([Ev.finish, Ev.progress 100], [⟨0, [7], false⟩]))
    ∧ ((retryableStatus v = true) →
      ∃ reqs, sendChunks (cfgOne r) (fun _ => Outcome.status v) (r + 2) initSt
          = some (burnEvents 0 r, reqs) ∧ ∀ q ∈ reqs, q.chunkNumber = 0)
    ∧ (successStatus v = false → retryableStatus v = false →
      sendChunks (cfgOne r) (fun _ => Outcome.status v) (r + 2) initSt
        = some ([Ev.error (ErrMsg.serverResponded v)], [⟨0, [7], false⟩])) := by
  have hg : getChunk (cfgOne r) initSt
      = (⟨1, true, 0, 0, 0⟩, ReadResult.chunk [7] false) := rfl
  have htc : totalChunks (cfgOne r) = 1 := by simp [totalChunks, cfgOne]
  refine ⟨fun hv => ?_, fun hv => ?_, fun hv1 hv2 => ?_⟩
  · rw [show r + 2 = (r + 1) + 1 from rfl]
    simp only [sendChunks, hg, Bool.false_and, Bool.false_eq_true, if_false, htc]
    simp only [hv, if_true]
    norm_num [jsRound]
  · obtain ⟨reqs, hrun, hreqs⟩ := burn_retryable (cfgOne r)
      (fun _ => Outcome.status v) v (fun _ => rfl) hv r initSt (r + 2)
      (by omega) (by simp [initSt, cfgOne])
    exact ⟨reqs, hrun, fun q hq => by simpa [initSt] using hreqs q hq⟩
  · rw [show r + 2 = (r + 1) + 1 from rfl]
    simp only [sendChunks, hg, Bool.false_and, Bool.false_eq_true, if_false]
    simp only [hv1, hv2, Bool.false_eq_true, if_false]

/-- C1 witness: at status 403 with budget 5, the session terminates at once
with the error naming 403; at status 200 it finishes. -/
theorem C1_status_classification_witness :
    sendChunks (cfgOne 5) (fun _ => Outcome.status 403) 7 initSt
        = some ([Ev.error (ErrMsg.serverResponded 403)], [⟨0, [7], false⟩])
    ∧ sendChunks (cfgOne 5) (fun _ => Outcome.status 200) 7 initSt
        = some ([Ev.finish, Ev.progress 100], [⟨0, [7], false⟩]) :=
  ⟨(C1_status_classification 403 5 (by decide)).2.2 (by decide) (by decide),
   (C1_status_classification 200 5 (by decide)).1 (by decide)⟩

/-- C2 counterexample: with budget 2 and responses [503, 200, ...] on a two
chunk session, the acceptance of a chunk does not reset the retry counter:
the very first failure of chunk 1 already carries retriesLeft 0 (the claim
as stated would give it retriesLeft 1, the full budget minus one), and the
session dies after a single further failure. -/
theorem C2_counterexample :
    sendChunks ⟨[1, 2, 3, 4], 2, 2, true⟩
        (fun n => if n = 0 then Outcome.status 503 else Outcome.status 200) 6 initSt
      = some ([Ev.fileRetry 0 1, Ev.progress 50, Ev.fileRetry 1 0,
          Ev.error (ErrMsg.noMoreRetries 1)],
        [⟨0, [1, 2], false⟩, ⟨0, [3, 4], false⟩])
    ∧ Ev.fileRetry 1 1 ∉ ([Ev.fileRetry 0 1, Ev.progress 50, Ev.fileRetry 1 0,
          Ev.error (ErrMsg.noMoreRetries 1)] : List Ev) := by decide

/-- C2 amended: the retry counter increments on any failure and is never
reset when a chunk is accepted, so the retry budget bounds the total number
of transient failures across the whole session (not the consecutive
failures of a single chunk): every completed session emits at most
cfg.retries retry notices in total. -/
theorem C2_amended_budget_global (cfg : Config) (resp : Nat → Outcome)
    (fuel : Nat) (evs : List Ev) (reqs : List Req)
    (h : sendChunks cfg resp fuel initSt = some (evs, reqs)) :
    countFileRetry evs ≤ cfg.retries := by
  have hb := countFileRetry_le cfg resp fuel initSt evs reqs (by simp [initSt]) h
  simpa [initSt] using hb

/-- C2 amended witness: the run of the counterexample has exactly 2 retry
notices, within its total budget of 2. -/
theorem C2_amended_budget_global_witness :
    countFileRetry [Ev.fileRetry 0 1, Ev.progress 50, Ev.fileRetry 1 0,
        Ev.error (ErrMsg.noMoreRetries 1)]
      ≤ (⟨[1, 2, 3, 4], 2, 2, true⟩ : Config).retries :=
  C2_amended_budget_global ⟨[1, 2, 3, 4], 2, 2, true⟩
    (fun n => if n = 0 then Outcome.status 503 else Outcome.status 200) 6 _
    [⟨0, [1, 2], false⟩, ⟨0, [3, 4], false⟩]
    (by decide)

/-- C3 (code bug): the delayed retry does not re-send the bytes of the
failed chunk.  `fs.read` with position null reads at the advanced cursor,
so with responses [503, 503, 200] on a three-chunk file the three requests
all carry chunk number 0 but bytes [1,2], [3,4] and [5,6] respectively:
the same index is sent three times with three different payloads, the read
cursor having silently consumed the whole file under index 0. -/
theorem C3_retry_rereads_advanced_cursor :
    sendChunks ⟨[1, 2, 3, 4, 5, 6], 2, 5, true⟩
        (fun n => if n ≤ 1 then Outcome.status 503 else Outcome.status 200) 10 initSt
      = some ([Ev.fileRetry 0 4, Ev.fileRetry 0 3, Ev.progress 33,
          Ev.fileRetry 1 2, Ev.fileRetry 1 1, Ev.fileRetry 1 0,
          Ev.error (ErrMsg.noMoreRetries 1)],
        [⟨0, [1, 2], false⟩, ⟨0, [3, 4], false⟩, ⟨0, [5, 6], false⟩]) := by decide

/-- C4 (code bug): when the file size is an exact multiple of the chunk
size, the final read returns a full chunk, so `lastChunk` is false on the
final request: the request with chunk number totalChunks - 1 = 1 is sent
without the last-chunk flag and the post parameters are attached to no
request at all, although the session still finishes. -/
theorem C4_exact_multiple_no_postparams :
    sendChunks ⟨[1, 2, 3, 4], 2, 5, true⟩ (fun _ => Outcome.status 200) 3 initSt
      = some ([Ev.progress 50, Ev.finish, Ev.progress 100],
        [⟨0, [1, 2], false⟩, ⟨1, [3, 4], false⟩])
    ∧ totalChunks ⟨[1, 2, 3, 4], 2, 5, true⟩ = 2 := by decide

/-- C5: with retry budget r and every response 503, exactly r retry notices
fire (counting down from r - 1 to 0), followed by exactly one terminal
error, and every request issued carries chunk number 0 — no chunk beyond
the failing index is ever sent. -/
theorem C5_retry_exhaustion (cfg : Config) (resp : Nat → Outcome)
    (hresp : ∀ n, resp n = Outcome.status 503) (hs : 0 < cfg.file.length) :
    ∃ reqs,
      sendChunks cfg resp (cfg.retries + 1) initSt
        = some (((List.range cfg.retries).reverse.map (fun t => Ev.fileRetry 0 t))
            ++ [Ev.error (ErrMsg.noMoreRetries 0)], reqs)
      ∧ (∀ q ∈ reqs, q.chunkNumber = 0) := by
  obtain ⟨reqs, hrun, hreqs⟩ := burn_retryable cfg resp 503 hresp (by decide)
    cfg.retries initSt (cfg.retries + 1) (by omega) (by simp [initSt])
  simp only [initSt] at hrun hreqs
  rw [burnEvents_eq] at hrun
  exact ⟨reqs, hrun, hreqs⟩

/-- C5 witness: budget 2, constant 503 responses: two retry notices then
one error, all requests on chunk 0. -/
theorem C5_retry_exhaustion_witness :
    ∃ reqs,
      sendChunks ⟨[7], 1, 2, true⟩ (fun _ => Outcome.status 503) 3 initSt
        = some (((List.range 2).reverse.map (fun t => Ev.fileRetry 0 t))
            ++ [Ev.error (ErrMsg.noMoreRetries 0)], reqs)
      ∧ (∀ q ∈ reqs, q.chunkNumber = 0) :=
  C5_retry_exhaustion ⟨[7], 1, 2, true⟩ (fun _ => Outcome.status 503)
    (fun _ => rfl) (by decide)

/-- C6: for every chunk size c > 0 and file, totalChunks is the ceiling of
fileSize / c (characterized by fileSize ≤ totalChunks * c < fileSize + c,
computed once from the configuration); in a failure-free run every request
whose chunk number is not the final index carries exactly c bytes, there is
one request per chunk, and the bytes sent across all requests sum to the
file size. -/
theorem C6_chunk_arithmetic (cfg : Config) (resp : Nat → Outcome)
    (hc : 0 < cfg.chunkSizeBytes) (hpp : cfg.hasPostParams = true)
    (hresp : ∀ n, resp n = Outcome.status 200) :
    ∃ evs reqs,
      sendChunks cfg resp (totalChunks cfg + cfg.retries + 2) initSt
        = some (evs, reqs)
      ∧ cfg.file.length ≤ totalChunks cfg * cfg.chunkSizeBytes
      ∧ totalChunks cfg * cfg.chunkSizeBytes < cfg.file.length + cfg.chunkSizeBytes
      ∧ reqs.length = totalChunks cfg
      ∧ (∀ q ∈ reqs, q.chunkNumber + 1 < totalChunks cfg →
          q.bytes.length = cfg.chunkSizeBytes)
      ∧ (reqs.map (fun q => q.bytes.length)).sum = cfg.file.length := by
  have hub : totalChunks cfg * cfg.chunkSizeBytes
      < cfg.file.length + cfg.chunkSizeBytes := by
    by_cases hs : cfg.file.length = 0
    · have htc : totalChunks cfg = 0 := by
        have h := totalChunks_pos_iff cfg hc
        omega
      rw [htc, hs]
      simpa using hc
    · have htc : 0 < totalChunks cfg := (totalChunks_pos_iff cfg hc).mpr (by omega)
      have h := (lt_totalChunks_iff cfg hc (totalChunks cfg - 1)).mp (by omega)
      have h2 : totalChunks cfg - 1 + 1 = totalChunks cfg := by omega
      have h3 : totalChunks cfg * cfg.chunkSizeBytes
          = (totalChunks cfg - 1) * cfg.chunkSizeBytes + cfg.chunkSizeBytes := by
        rw [← add_one_mul, h2]
      omega
  by_cases hs : cfg.file.length = 0
  · have htc : totalChunks cfg = 0 := by
      have h := totalChunks_pos_iff cfg hc
      omega
    refine ⟨burnEvents 0 cfg.retries, [], ?_, by simp [hs], hub, by simp [htc],
      by simp, by simp [hs]⟩
    exact burn_noSend cfg resp cfg.retries initSt _ (by omega)
      (Or.inr (by simp [initSt, hs])) (by simp [initSt])
  · have htc : 0 < totalChunks cfg := (totalChunks_pos_iff cfg hc).mpr (by omega)
    have hrun := run_allSuccess cfg resp hc hpp hresp (totalChunks cfg) initSt
      (totalChunks cfg + cfg.retries + 2) htc (by omega) rfl
      (by simp [initSt]) (by simp [initSt])
    simp only [initSt] at hrun
    refine ⟨_, _, hrun, length_le_totalChunks_mul cfg hc, hub,
      succReqs_length cfg.file cfg.chunkSizeBytes (totalChunks cfg) 0,
      fun q hq hlt => succReqs_bytes_full cfg hc (totalChunks cfg) 0
        (by omega) q hq hlt, ?_⟩
    have hsum := succReqs_bytes_sum cfg hc (totalChunks cfg) 0 (by omega)
    simpa using hsum

/-- C6 witness: a 5-byte file with 2-byte chunks: 3 chunks of 2, 2 and 1
bytes, summing to 5, with totalChunks bracketed by 5 ≤ 6 < 7. -/
theorem C6_chunk_arithmetic_witness :
    ∃ evs reqs,
      sendChunks ⟨[1, 2, 3, 4, 5], 2, 5, true⟩ (fun _ => Outcome.status 200)
          (totalChunks ⟨[1, 2, 3, 4, 5], 2, 5, true⟩ + 5 + 2) initSt
        = some (evs, reqs)
      ∧ 5 ≤ totalChunks ⟨[1, 2, 3, 4, 5], 2, 5, true⟩ * 2
      ∧ totalChunks ⟨[1, 2, 3, 4, 5], 2, 5, true⟩ * 2 < 5 + 2
      ∧ reqs.length = totalChunks ⟨[1, 2, 3, 4, 5], 2, 5, true⟩
      ∧ (∀ q ∈ reqs, q.chunkNumber + 1 < totalChunks ⟨[1, 2, 3, 4, 5], 2, 5, true⟩ →
          q.bytes.length = 2)
      ∧ (reqs.map (fun q => q.bytes.length)).sum = 5 :=
  C6_chunk_arithmetic ⟨[1, 2, 3, 4, 5], 2, 5, true⟩ (fun _ => Outcome.status 200)
    (by decide) rfl (fun _ => rfl)

/-- C7 counterexample: on a one-chunk session with a 200 response, the
acceptance of the final chunk emits finish and then a progress event with
value 100 after it: progress is not emitted only for non-final accepted
chunks, and an event does fire after the terminal finish, refuting the
claim as stated. -/
theorem C7_counterexample :
    sendChunks (cfgOne 5) (fun _ => Outcome.status 200) 2 initSt
      = some ([Ev.finish, Ev.progress 100], [⟨0, [7], false⟩]) := by decide

/-- C7 amended: under an arbitrary response oracle, any completed session
emits exactly one progress event per accepted chunk (a POST answered 200,
201 or 204) and none on a failed, retried or thrown attempt, and every
progress event carries round(100 * m / totalChunks) for some acceptance
counter 0 < m ≤ totalChunks; progress does however also fire for the final
accepted chunk: in a failure-free run, on acceptance of the last chunk the
terminal finish event is emitted and the progress event with value 100
fires immediately after it. -/
theorem C7_amended_progress (cfg : Config) (resp : Nat → Outcome)
    (hc : 0 < cfg.chunkSizeBytes) (hs : 0 < cfg.file.length) :
    (∀ (fuel : Nat) (evs : List Ev) (reqs : List Req),
      sendChunks cfg resp fuel initSt = some (evs, reqs) →
      countProgress evs = countSuccesses resp 0 reqs.length)
    ∧ (∀ (fuel : Nat) (evs : List Ev) (reqs : List Req),
      sendChunks cfg resp fuel initSt = some (evs, reqs) →
      ∀ p, Ev.progress p ∈ evs →
        ∃ m, 0 < m ∧ m ≤ totalChunks cfg
          ∧ p = jsRound (100 * m) (totalChunks cfg))
    ∧ (cfg.hasPostParams = true → (∀ n, resp n = Outcome.status 200) →
      ∃ pre reqs,
        sendChunks cfg resp (totalChunks cfg + 1) initSt
          = some (pre ++ [Ev.finish, Ev.progress 100], reqs)
        ∧ ∀ e ∈ pre, ∃ m, 0 < m ∧ m < totalChunks cfg
            ∧ e = Ev.progress (jsRound (100 * m) (totalChunks cfg))) := by
  have htc : 0 < totalChunks cfg := (totalChunks_pos_iff cfg hc).mpr hs
  refine ⟨?_, ?_, fun hpp hresp => ?_⟩
  · intro fuel evs reqs h
    have hb := countProgress_eq cfg resp fuel initSt evs reqs h
    simpa [initSt] using hb
  · intro fuel evs reqs h p hp
    obtain ⟨m, hm1, hm2, hm3⟩ := progress_values cfg resp fuel initSt evs reqs
      (by simpa [initSt] using htc) h p hp
    exact ⟨m, by simpa [initSt] using hm1, hm2, hm3⟩
  · have hrun := run_allSuccess cfg resp hc hpp hresp (totalChunks cfg) initSt
      (totalChunks cfg + 1) htc (by omega) rfl (by simp [initSt]) (by simp [initSt])
    simp only [initSt] at hrun
    obtain ⟨pre, hpre, hmem⟩ :=
      succEvents_decomp (totalChunks cfg) (totalChunks cfg) 0 htc (by omega)
    rw [jsRound_total _ htc] at hpre
    rw [hpre] at hrun
    exact ⟨pre, _, hrun, hmem⟩

/-- C7 amended witness: a 3-byte file with 2-byte chunks and budget 2.
Under the mixed oracle [503, 200, ...] the completed run has exactly one
progress event, matching its one accepted POST out of two issued, and the
value 50 it carries is round(100 * m / totalChunks) for an acceptance
counter m; under the all-200 oracle finish fires followed by progress
100. -/
theorem C7_amended_progress_witness :
    countProgress [Ev.fileRetry 0 1, Ev.progress 50, Ev.fileRetry 1 0,
        Ev.error (ErrMsg.noMoreRetries 1)]
      = countSuccesses
          (fun n => if n = 0 then Outcome.status 503 else Outcome.status 200) 0 2
    ∧ (∃ m, 0 < m ∧ m ≤ totalChunks ⟨[1, 2, 3], 2, 2, true⟩
        ∧ 50 = jsRound (100 * m) (totalChunks ⟨[1, 2, 3], 2, 2, true⟩))
    ∧ (∃ pre reqs,
        sendChunks ⟨[1, 2, 3], 2, 2, true⟩ (fun _ => Outcome.status 200)
            (totalChunks ⟨[1, 2, 3], 2, 2, true⟩ + 1) initSt
          = some (pre ++ [Ev.finish, Ev.progress 100], reqs)
        ∧ ∀ e ∈ pre, ∃ m, 0 < m ∧ m < totalChunks ⟨[1, 2, 3], 2, 2, true⟩
            ∧ e = Ev.progress (jsRound (100 * m) (totalChunks ⟨[1, 2, 3], 2, 2, true⟩))) :=
  ⟨(C7_amended_progress ⟨[1, 2, 3], 2, 2, true⟩
      (fun n => if n = 0 then Outcome.status 503 else Outcome.status 200)
      (by decide) (by decide)).1 8
      [Ev.fileRetry 0 1, Ev.progress 50, Ev.fileRetry 1 0,
        Ev.error (ErrMsg.noMoreRetries 1)]
      [⟨0, [1, 2], false⟩, ⟨0, [3], true⟩] (by decide),
   (C7_amended_progress ⟨[1, 2, 3], 2, 2, true⟩
      (fun n => if n = 0 then Outcome.status 503 else Outcome.status 200)
      (by decide) (by decide)).2.1 8
      [Ev.fileRetry 0 1, Ev.progress 50, Ev.fileRetry 1 0,
        Ev.error (ErrMsg.noMoreRetries 1)]
      [⟨0, [1, 2], false⟩, ⟨0, [3], true⟩] (by decide) 50 (by decide),
   (C7_amended_progress ⟨[1, 2, 3], 2, 2, true⟩ (fun _ => Outcome.status 200)
      (by decide) (by decide)).2.2 rfl (fun _ => rfl)⟩

/-- C8 counterexample: for a path that cannot be stat-ed (the file does not
exist), the constructor does not complete and emit a terminal error event:
the synchronous `fs.statSync` call in the constructor raises to the caller
before `_startSending` ever runs, refuting the claim as stated. -/
theorem C8_counterexample :
    constructorRun "e" ⟨false, true⟩ ⟨[7], 1, 5, true⟩
        (fun _ => Outcome.status 200) 3
      = Except.error CtorError.statFailure := rfl

/-- C8 amended: an empty endpoint raises the structural error; a path whose
stat fails (e.g. nonexistent file) raises synchronously from the statSync
call in the constructor; when stat succeeds but the file cannot be opened
for reading, the constructor completes and the session emits the terminal
startup error without any chunk send being attempted. -/
theorem C8_amended_startup (cfg : Config) (resp : Nat → Outcome) (fuel : Nat)
    (endpoint : String) (openOk : Bool) :
    (endpoint.length = 0 →
      constructorRun endpoint ⟨false, openOk⟩ cfg resp fuel
        = Except.error CtorError.badParams)
    ∧ (¬ endpoint.length = 0 →
      constructorRun endpoint ⟨false, openOk⟩ cfg resp fuel
        = Except.error CtorError.statFailure)
    ∧ (¬ endpoint.length = 0 →
      constructorRun endpoint ⟨true, false⟩ cfg resp fuel
        = Except.ok (some ([Ev.error ErrMsg.startFail], []))) := by
  refine ⟨fun h => ?_, fun h => ?_, fun h => ?_⟩ <;> simp [constructorRun, h]

/-- C8 amended witness: with a nonempty endpoint, the stat failure raises
and the open failure emits the startup error. -/
theorem C8_amended_startup_witness :
    constructorRun "e" ⟨false, true⟩ ⟨[7], 1, 5, true⟩
        (fun _ => Outcome.status 200) 3
      = Except.error CtorError.statFailure
    ∧ constructorRun "e" ⟨true, false⟩ ⟨[7], 1, 5, true⟩
        (fun _ => Outcome.status 200) 3
      = Except.ok (some ([Ev.error ErrMsg.startFail], [])) :=
  ⟨(C8_amended_startup ⟨[7], 1, 5, true⟩ (fun _ => Outcome.status 200) 3 "e"
      true).2.1 (by decide),
   (C8_amended_startup ⟨[7], 1, 5, true⟩ (fun _ => Outcome.status 200) 3 "e"
      false).2.2 (by decide)⟩

/-- C9: when postParams is omitted, on the first chunk whose last-chunk flag
is set the request construction throws before any POST is issued (no
request with the flag set is ever traced and only totalChunks - 1 requests
go out), the failure is handled as transient, the whole retry budget burns
on the final index, the session ends with the terminal error, and finish
never fires — for any file whose size is not an exact multiple of the
chunk size. -/
theorem C9_missing_postparams (cfg : Config) (resp : Nat → Outcome)
    (hc : 0 < cfg.chunkSizeBytes) (hpp : cfg.hasPostParams = false)
    (hnd : ¬ cfg.chunkSizeBytes ∣ cfg.file.length) (hs : 0 < cfg.file.length)
    (hresp : ∀ n, resp n = Outcome.status 200) :
    ∃ pre reqs,
      sendChunks cfg resp (totalChunks cfg + cfg.retries + 2) initSt
        = some (pre ++ burnEvents (totalChunks cfg - 1) cfg.retries, reqs)
      ∧ (∀ e ∈ pre, ∃ m, 0 < m ∧ m < totalChunks cfg
          ∧ e = Ev.progress (jsRound (100 * m) (totalChunks cfg)))
      ∧ Ev.finish ∉ pre ++ burnEvents (totalChunks cfg - 1) cfg.retries
      ∧ (∀ q ∈ reqs, q.lastFlag = false)
      ∧ reqs.length = totalChunks cfg - 1 := by
  have htc : 0 < totalChunks cfg := (totalChunks_pos_iff cfg hc).mpr hs
  obtain ⟨pre, reqs, hrun, hpre, hflags, hlen⟩ :=
    run_noPostParams cfg resp hc hpp hnd hresp (totalChunks cfg) initSt
      (totalChunks cfg + cfg.retries + 2) htc (by omega) rfl rfl
      (by simp [initSt]) (by simp [initSt])
  simp only [initSt] at hrun hpre
  refine ⟨pre, reqs, hrun, hpre, ?_, hflags, hlen⟩
  intro hmem
  rcases List.mem_append.mp hmem with h | h
  · obtain ⟨m, _, _, h3⟩ := hpre _ h
    simp at h3
  · exact finish_not_mem_burnEvents _ _ h

/-- C9 witness: a 3-byte file with 2-byte chunks, budget 2 and no
postParams: chunk 0 goes out and is accepted, then the last chunk throws
before sending, two retry notices fire and the error ends the session;
finish never fires and only one request was issued. -/
theorem C9_missing_postparams_witness :
    ∃ pre reqs,
      sendChunks ⟨[1, 2, 3], 2, 2, false⟩ (fun _ => Outcome.status 200)
          (totalChunks ⟨[1, 2, 3], 2, 2, false⟩ + 2 + 2) initSt
        = some (pre ++ burnEvents (totalChunks ⟨[1, 2, 3], 2, 2, false⟩ - 1) 2, reqs)
      ∧ (∀ e ∈ pre, ∃ m, 0 < m ∧ m < totalChunks ⟨[1, 2, 3], 2, 2, false⟩
          ∧ e = Ev.progress (jsRound (100 * m) (totalChunks ⟨[1, 2, 3], 2, 2, false⟩)))
      ∧ Ev.finish ∉ pre ++ burnEvents (totalChunks ⟨[1, 2, 3], 2, 2, false⟩ - 1) 2
      ∧ (∀ q ∈ reqs, q.lastFlag = false)
      ∧ reqs.length = totalChunks ⟨[1, 2, 3], 2, 2, false⟩ - 1 :=
  C9_missing_postparams ⟨[1, 2, 3], 2, 2, false⟩ (fun _ => Outcome.status 200)
    (by decide) rfl (by decide) (by decide) (fun _ => rfl)

/-- C10: for a zero-byte file totalChunks is 0, the first read returns zero
bytes so `_getChunk` closes the descriptor and resolves undefined, no HTTP
request is ever issued, and the session emits one fileRetry per unit of
retry budget (every retry failing again without a send) followed by exactly
one terminal error; finish never fires. -/
theorem C10_zero_byte_file (c r : Nat) (pp : Bool) (resp : Nat → Outcome) :
    totalChunks ⟨[], c, r, pp⟩ = 0
    ∧ getChunk ⟨[], c, r, pp⟩ initSt
        = ({ initSt with fdOpen := false }, ReadResult.eof)
    ∧ sendChunks ⟨[], c, r, pp⟩ resp (r + 1) initSt
        = some (burnEvents 0 r, [])
    ∧ countFileRetry (burnEvents 0 r) = r
    ∧ Ev.finish ∉ burnEvents 0 r := by
  refine ⟨?_, ?_, ?_, countFileRetry_burnEvents 0 r, finish_not_mem_burnEvents 0 r⟩
  · show (List.length ([] : List Nat) + c - 1) / c = 0
    cases c with
    | zero => rfl
    | succ c2 =>
        apply Nat.div_eq_of_lt
        simp
  · simp [getChunk, initSt]
  · exact burn_noSend ⟨[], c, r, pp⟩ resp r initSt _ (by omega)
      (Or.inr (by simp [initSt])) (by simp [initSt])

end HugeUploader
